import Mathlib

set_option maxHeartbeats 1000000
set_option maxRecDepth 4000

/-!
Verification development for the pbfcm taxsale scraping engine
(`pbfcm_engine.py`).  The extraction pipeline is embedded shallowly:

* strings are manipulated through structural functions on `List Char`,
  mirroring the exact Python / JavaScript string primitives the engine uses;
* `urllib.parse`'s `urlsplit`, `urlparse`, `urljoin`, `urlunsplit`,
  `urlunparse` and `urldefrag` (CPython 3.11) are modelled function by
  function;
* the rendered DOM is a tree of elements whose visible text (`innerText`,
  `textContent`) is data supplied by the (out-of-scope) rendering engine;
* the in-page extraction script, the canonicalisation/deduplication loop,
  `_file_type`, `_normalize`, `scrape`, and the `start`/`stop` lifecycle are
  translated into pure Lean functions.
-/

/-! ## Character classes (ASCII, as used by the Python and JS primitives) -/

/-- ASCII upper-case letter. -/
def isAsciiUpperC (c : Char) : Bool := decide (65 ≤ c.toNat) && decide (c.toNat ≤ 90)

/-- ASCII lower-case letter. -/
def isAsciiLowerC (c : Char) : Bool := decide (97 ≤ c.toNat) && decide (c.toNat ≤ 122)

/-- ASCII letter: `url[0].isascii() and url[0].isalpha()` in `urlsplit`, and the
JavaScript regex `/[A-Za-z]/`. -/
def isAsciiAlphaC (c : Char) : Bool := isAsciiUpperC c || isAsciiLowerC c

/-- ASCII digit. -/
def isAsciiDigitC (c : Char) : Bool := decide (48 ≤ c.toNat) && decide (c.toNat ≤ 57)

/-- Membership in `urllib.parse.scheme_chars` (ASCII letters, digits, `+`, `-`, `.`). -/
def isSchemeCharC (c : Char) : Bool :=
  isAsciiAlphaC c || isAsciiDigitC c || decide (c = '+') || decide (c = '-') || decide (c = '.')

/-- Whitespace stripped by JavaScript `String.prototype.trim` and Python
`str.strip()` (restricted to the ASCII whitespace characters; the engine's
data is ASCII-space separated). -/
def isWsC (c : Char) : Bool :=
  decide (c = ' ') || decide (c = '\t') || decide (c = '\n') || decide (c = '\r') ||
  decide (c = '\x0b') || decide (c = '\x0c')

/-- Membership in `urllib.parse._WHATWG_C0_CONTROL_OR_SPACE` (code points 0x00–0x20). -/
def isC0OrSpaceC (c : Char) : Bool := decide (c.toNat ≤ 32)

/-- Membership in `urllib.parse._UNSAFE_URL_BYTES_TO_REMOVE` (`\t`, `\r`, `\n`). -/
def isBadUrlByteC (c : Char) : Bool := decide (c = '\t') || decide (c = '\r') || decide (c = '\n')

/-- ASCII lowering of one character, as `str.lower` acts on the ASCII range.
`urlsplit` only lowers strings already checked to consist of `scheme_chars`,
and the suffixes `_file_type` classifies are ASCII, so the ASCII range is the
part of `str.lower` the engine exercises. -/
def lowerChar (c : Char) : Char :=
  match c with
  | 'A' => 'a' | 'B' => 'b' | 'C' => 'c' | 'D' => 'd' | 'E' => 'e' | 'F' => 'f'
  | 'G' => 'g' | 'H' => 'h' | 'I' => 'i' | 'J' => 'j' | 'K' => 'k' | 'L' => 'l'
  | 'M' => 'm' | 'N' => 'n' | 'O' => 'o' | 'P' => 'p' | 'Q' => 'q' | 'R' => 'r'
  | 'S' => 's' | 'T' => 't' | 'U' => 'u' | 'V' => 'v' | 'W' => 'w' | 'X' => 'x'
  | 'Y' => 'y' | 'Z' => 'z'
  | c => c

/-! ## List-of-char string operations -/

/-- `l.contains c` for characters, phrased through `Decidable` membership. -/
def containsC (c : Char) (l : List Char) : Bool := decide (c ∈ l)

/-- Boolean prefix test. -/
def isPrefixL : List Char → List Char → Bool
  | [], _ => true
  | _ :: _, [] => false
  | a :: as, b :: bs => decide (a = b) && isPrefixL as bs

/-- Boolean infix (substring) test. -/
def isInfixL (pat : List Char) : List Char → Bool
  | [] => isPrefixL pat []
  | c :: cs => isPrefixL pat (c :: cs) || isInfixL pat cs

/-- JavaScript `s.trim()` / Python `s.strip()` on char lists. -/
def trimL (l : List Char) : List Char :=
  ((l.dropWhile isWsC).reverse.dropWhile isWsC).reverse

/-- The part of `l` strictly before the first occurrence of `c`
(`l.split(c, 1)[0]` when `c` occurs). -/
def beforeChar (c : Char) (l : List Char) : List Char :=
  l.takeWhile (fun x => !(decide (x = c)))

/-- The part of `l` strictly after the first occurrence of `c`
(`l.split(c, 1)[1]` when `c` occurs). -/
def afterChar (c : Char) (l : List Char) : List Char :=
  (l.dropWhile (fun x => !(decide (x = c)))).drop 1

/-- Python `l.split('/')`. -/
def splitSlashL : List Char → List (List Char)
  | [] => [[]]
  | x :: xs =>
    let r := splitSlashL xs
    if decide (x = '/') then [] :: r
    else
      match r with
      | [] => [[x]]
      | s :: rest => (x :: s) :: rest

/-- Python `'/'.join(parts)`. -/
def joinSlashL : List (List Char) → List Char
  | [] => []
  | [a] => a
  | a :: b :: rest => a ++ '/' :: joinSlashL (b :: rest)

/-! ## String-level wrappers -/

/-- Char list of a string literal (notation helper for the constant tables). -/
def sL (s : String) : List Char := s.toList

/-- JavaScript / Python trim on `String`. -/
def trimS (s : String) : String := String.mk (trimL s.toList)

/-- ASCII `str.lower()` on `String`. -/
def lowerS (s : String) : String := String.mk (s.toList.map lowerChar)

/-- `s.startswith(pat)` / JS `s.startsWith(pat)`. -/
def startsWithS (s pat : String) : Bool := isPrefixL pat.toList s.toList

/-- `s.endswith(pat)`. -/
def endsWithS (s pat : String) : Bool := isPrefixL pat.toList.reverse s.toList.reverse

/-- `pat in s` (substring containment). -/
def containsSubS (s pat : String) : Bool := isInfixL pat.toList s.toList

/-- JavaScript `a || b` on strings (empty string is falsy). -/
def jsOrS (a b : String) : String := if a = "" then b else a

/-! ## Model of `urllib.parse` (CPython 3.11)

The validation-only steps of `urlsplit` (the invalid-IPv6 `ValueError`,
`_check_bracketed_host`, `_checknetloc`) are omitted: they either raise or
return nothing, and the engine's claims are about the returned components. -/

/-- Result of `urlsplit`: scheme, netloc, path, query, fragment. -/
structure SplitL where
  scheme : List Char
  netloc : List Char
  path : List Char
  query : List Char
  fragment : List Char
deriving DecidableEq, Repr

/-- Result of `urlparse`: `urlsplit` plus the params component. -/
structure ParseL where
  scheme : List Char
  netloc : List Char
  path : List Char
  params : List Char
  query : List Char
  fragment : List Char
deriving DecidableEq, Repr

/-- `urllib.parse.uses_relative`. -/
def usesRelativeL : List (List Char) :=
  [[], sL "ftp", sL "http", sL "gopher", sL "nntp", sL "imap", sL "wais", sL "file",
   sL "https", sL "shttp", sL "mms", sL "prospero", sL "rtsp", sL "rtsps", sL "rtspu",
   sL "sftp", sL "svn", sL "svn+ssh", sL "ws", sL "wss"]

/-- `urllib.parse.uses_netloc`. -/
def usesNetlocL : List (List Char) :=
  [[], sL "ftp", sL "http", sL "gopher", sL "nntp", sL "telnet", sL "imap", sL "wais",
   sL "file", sL "mms", sL "https", sL "shttp", sL "snews", sL "prospero", sL "rtsp",
   sL "rtsps", sL "rtspu", sL "rsync", sL "svn", sL "svn+ssh", sL "sftp", sL "nfs",
   sL "git", sL "git+ssh", sL "ws", sL "wss"]

/-- `urllib.parse.uses_params`. -/
def usesParamsL : List (List Char) :=
  [[], sL "ftp", sL "hdl", sL "prospero", sL "http", sL "imap", sL "https", sL "shttp",
   sL "rtsp", sL "rtsps", sL "rtspu", sL "sip", sL "sips", sL "mms", sL "sftp", sL "tel"]

/-- `urllib.parse.urlsplit(url, scheme, allow_fragments=True)`.  The default
scheme arguments the engine induces (`''` and `'https'`) contain no characters
touched by the WHATWG sanitisation, so it is applied to the url only. -/
def pyUrlsplitL (url0 : List Char) (defaultScheme : List Char) : SplitL :=
  let url1 := url0.dropWhile isC0OrSpaceC
  let url2 := url1.filter (fun c => !(isBadUrlByteC c))
  let pre := url2.takeWhile (fun c => !(decide (c = ':')))
  let schemeOk := containsC ':' url2 && !(decide (pre = [])) &&
                  isAsciiAlphaC (pre.headD 'x') && pre.all isSchemeCharC
  let scheme := if schemeOk then pre.map lowerChar else defaultScheme
  let rest := if schemeOk then url2.drop (pre.length + 1) else url2
  let hasNetloc := isPrefixL ['/', '/'] rest
  let after2 := rest.drop 2
  let netloc := if hasNetloc then after2.takeWhile (fun c => !(containsC c ['/', '?', '#'])) else []
  let rest2 := if hasNetloc then after2.dropWhile (fun c => !(containsC c ['/', '?', '#'])) else rest
  let u3 := if containsC '#' rest2 then beforeChar '#' rest2 else rest2
  let fragment := if containsC '#' rest2 then afterChar '#' rest2 else []
  let path := if containsC '?' u3 then beforeChar '?' u3 else u3
  let query := if containsC '?' u3 then afterChar '?' u3 else []
  { scheme := scheme, netloc := netloc, path := path, query := query, fragment := fragment }

/-- `urllib.parse._splitparams(url)`.  Only evaluated by `urlparse` under the
guard `';' in url`, which makes the `find` results it uses non-negative. -/
def splitparamsL (l : List Char) : List Char × List Char :=
  if containsC '/' l then
    let revTail := l.reverse.takeWhile (fun x => !(decide (x = '/')))
    let seg := revTail.reverse
    let stem := l.take (l.length - revTail.length)
    if containsC ';' seg then (stem ++ beforeChar ';' seg, afterChar ';' seg) else (l, [])
  else
    (beforeChar ';' l, afterChar ';' l)

/-- `urllib.parse.urlparse(url, scheme, allow_fragments=True)`. -/
def pyUrlparseL (url : List Char) (defaultScheme : List Char) : ParseL :=
  let sp := pyUrlsplitL url defaultScheme
  if decide (sp.scheme ∈ usesParamsL) && containsC ';' sp.path then
    let pr := splitparamsL sp.path
    ⟨sp.scheme, sp.netloc, pr.1, pr.2, sp.query, sp.fragment⟩
  else
    ⟨sp.scheme, sp.netloc, sp.path, [], sp.query, sp.fragment⟩

/-- `urllib.parse.urlunsplit((scheme, netloc, url, query, fragment))`. -/
def pyUrlunsplitL (scheme netloc path query fragment : List Char) : List Char :=
  let url1 :=
    if !(decide (netloc = [])) ||
       (!(decide (scheme = [])) && decide (scheme ∈ usesNetlocL) &&
        !(decide (path.take 2 = ['/', '/']))) then
      let p := if !(decide (path = [])) && !(isPrefixL ['/'] path) then '/' :: path else path
      '/' :: '/' :: (netloc ++ p)
    else path
  let url2 := if !(decide (scheme = [])) then scheme ++ ':' :: url1 else url1
  let url3 := if !(decide (query = [])) then url2 ++ '?' :: query else url2
  if !(decide (fragment = [])) then url3 ++ '#' :: fragment else url3

/-- `urllib.parse.urlunparse((scheme, netloc, url, params, query, fragment))`. -/
def pyUrlunparseL (scheme netloc path params query fragment : List Char) : List Char :=
  let path2 := if !(decide (params = [])) then path ++ ';' :: params else path
  pyUrlunsplitL scheme netloc path2 query fragment

/-- Python `resolved_path` loop of `urljoin`: `..` pops, `.` is skipped,
anything else is appended. -/
def resolveSegsL (segs : List (List Char)) : List (List Char) :=
  segs.foldl
    (fun acc seg =>
      if decide (seg = ['.', '.']) then acc.dropLast
      else if decide (seg = ['.']) then acc
      else acc ++ [seg]) []

/-- Python `segments[1:-1] = filter(None, segments[1:-1])`. -/
def filterMiddleL (segs : List (List Char)) : List (List Char) :=
  match segs with
  | [] => []
  | [a] => [a]
  | a :: b :: rest =>
    a :: (((b :: rest).dropLast.filter (fun s => !(decide (s = [])))) ++ [(b :: rest).getLastD []])

/-- `urllib.parse.urljoin(base, url)` (allow_fragments left at its default
`True`, the only way the engine calls it). -/
def pyUrljoinL (base url : List Char) : List Char :=
  if decide (base = []) then url
  else if decide (url = []) then base
  else
    let b := pyUrlparseL base []
    let u := pyUrlparseL url b.scheme
    if !(decide (u.scheme = b.scheme)) || !(decide (u.scheme ∈ usesRelativeL)) then url
    else if decide (u.scheme ∈ usesNetlocL) && !(decide (u.netloc = [])) then
      pyUrlunparseL u.scheme u.netloc u.path u.params u.query u.fragment
    else
      let netloc := if decide (u.scheme ∈ usesNetlocL) then b.netloc else u.netloc
      if decide (u.path = []) && decide (u.params = []) then
        let query := if decide (u.query = []) then b.query else u.query
        pyUrlunparseL u.scheme netloc b.path b.params query u.fragment
      else
        let baseParts0 := splitSlashL b.path
        let baseParts := if !(decide (baseParts0.getLastD [] = [])) then baseParts0.dropLast else baseParts0
        let segments :=
          if isPrefixL ['/'] u.path then splitSlashL u.path
          else filterMiddleL (baseParts ++ splitSlashL u.path)
        let resolved0 := resolveSegsL segments
        let resolved :=
          if decide (segments.getLastD [] = ['.']) || decide (segments.getLastD [] = ['.', '.'])
          then resolved0 ++ [[]] else resolved0
        let joined := joinSlashL resolved
        let path2 := if decide (joined = []) then ['/'] else joined
        pyUrlunparseL u.scheme netloc path2 u.params u.query u.fragment

/-- First component of `urllib.parse.urldefrag(url)` (the engine discards the
returned fragment). -/
def pyUrldefragL (url : List Char) : List Char :=
  if containsC '#' url then
    let p := pyUrlparseL url []
    pyUrlunparseL p.scheme p.netloc p.path p.params p.query []
  else url

/-- `urljoin` on `String`. -/
def pyUrljoin (base url : String) : String := String.mk (pyUrljoinL base.toList url.toList)

/-- Defragmented URL on `String`. -/
def pyUrldefrag (url : String) : String := String.mk (pyUrldefragL url.toList)

/-! ## The engine's record types and Python-side pipeline (`pbfcm_engine.py`) -/

/-- The fixed source URL `PBF_URL`. -/
def PBF_URL : String := "https://www.pbfcm.com/taxsale.html"

/-- A raw extracted row, as pushed by the in-page script: the fields are the
dict entries `"tax-list-entity-title"`, `"tax-list-file"` and
`"tax-list-file href"` (each possibly `null`). -/
structure RawRecord where
  title : Option String
  label : Option String
  href : Option String
deriving DecidableEq, Repr

/-- Python `x or ""` on an optional string field (`None` and `""` both give `""`). -/
def orEmptyS : Option String → String
  | some s => s
  | none => ""

/-- The dedup key built in `_extract_js`:
`(r.get("tax-list-entity-title") or "", r.get("tax-list-file") or "", r.get("tax-list-file href") or "")`. -/
def keyOf (r : RawRecord) : String × String × String :=
  (orEmptyS r.title, orEmptyS r.label, orEmptyS r.href)

/-- The URL-canonicalisation step of the `_extract_js` loop: a truthy href is
replaced by `urldefrag(urljoin(PBF_URL, href))[0]`; `None` and `""` are left
untouched. -/
def canonRecord (r : RawRecord) : RawRecord :=
  match r.href with
  | some h => if h = "" then r else { r with href := some (pyUrldefrag (pyUrljoin PBF_URL h)) }
  | none => r

/-- The canonicalise-and-dedupe loop of `_extract_js` (lines 162–176): the
`seen` set is modelled as the list of keys added so far. -/
def cleanLoop : List RawRecord → List (String × String × String) → List RawRecord
  | [], _ => []
  | r :: rs, seen =>
    let r2 := canonRecord r
    let k := keyOf r2
    if k ∈ seen then cleanLoop rs seen
    else r2 :: cleanLoop rs (k :: seen)

/-- The Python half of `_extract_js`: canonicalise every row's href, then keep
the first row for each key. -/
def cleanRows (rows : List RawRecord) : List RawRecord := cleanLoop rows []

/-- `PBFcmsScraper._file_type`. -/
def file_type (url : Option String) : Option String :=
  match url with
  | none => none
  | some u =>
    if u = "" then none
    else
      let path := String.mk ((pyUrlparseL u.toList []).path.map lowerChar)
      if endsWithS path ".pdf" then some "pdf"
      else if endsWithS path ".doc" || endsWithS path ".docx" then some "doc"
      else if endsWithS path ".xls" || endsWithS path ".xlsx" then some "xls"
      else none

/-- A normalized record: `entity_title`, `file_label`, `file_url`, `file_type`. -/
structure NormRecord where
  entity_title : Option String
  file_label : Option String
  file_url : Option String
  file_type : Option String
deriving DecidableEq, Repr

/-- Python `s.strip() or None` applied to `raw.get(k) or ""`. -/
def stripOrNone (o : Option String) : Option String :=
  let t := trimS (orEmptyS o)
  if t = "" then none else some t

/-- `PBFcmsScraper._normalize`. -/
def _normalize (r : RawRecord) : NormRecord :=
  let href : Option String :=
    match r.href with
    | some h => if h = "" then none else some h
    | none => none
  { entity_title := stripOrNone r.title
  , file_label := stripOrNone r.label
  , file_url := href
  , file_type := file_type href }

/-- The scrape result: `source_url`, `count`, `raw`, `normalized`. -/
structure ScrapeResult where
  source_url : String
  count : Nat
  raw : List RawRecord
  normalized : List NormRecord
deriving DecidableEq, Repr

/-! ## Browser lifecycle state (`start` / `stop`)

The Playwright handles `self._pw` and `self._browser` are out-of-scope
resources; the lifecycle state the engine manages is whether each is set. -/

/-- Lifecycle state of a `PBFcmsScraper`: whether `self._pw` and
`self._browser` are non-`None`. -/
structure ScraperState where
  pw : Bool
  browser : Bool
deriving DecidableEq, Repr

/-- `PBFcmsScraper.start`: returns immediately when `self._browser` is set,
otherwise starts playwright and launches a browser. -/
def start (s : ScraperState) : ScraperState :=
  if s.browser then s else { pw := true, browser := true }

/-- `PBFcmsScraper.stop`: closes and clears the browser if set, then stops and
clears playwright if set. -/
def stop (s : ScraperState) : ScraperState :=
  let s1 := if s.browser then { s with browser := false } else s
  if s1.pw then { s1 with pw := false } else s1

/-! ## Rendered-document model

The page fetcher is out of scope (spec §1/§2): it delivers a fully rendered
document supporting structural queries, ancestor traversal, visible-text
extraction and attribute reads.  An element therefore carries its tag, its
class list, its attributes, and its rendered `innerText` and raw
`textContent` as data produced by the renderer. -/

/-- Renderer-supplied data of one element. -/
structure ElemData where
  tag : String
  classes : List String
  attrs : List (String × String)
  innerText : String
  textContent : String
deriving DecidableEq, Repr

mutual
/-- A rendered DOM node (the root node plays the role of `document`). -/
inductive Node : Type where
  | mk (data : ElemData) (children : NodeList)
/-- A list of sibling nodes (kept mutual with `Node` so that all traversals
are structural and evaluate inside the kernel). -/
inductive NodeList : Type where
  | nil
  | cons (head : Node) (tail : NodeList)
end

/-- The element data of a node. -/
def Node.data : Node → ElemData
  | .mk d _ => d

/-- The children of a node. -/
def Node.children : Node → NodeList
  | .mk _ cs => cs

/-- Building a `NodeList` from a `List`. -/
def nodesOf : List Node → NodeList
  | [] => .nil
  | n :: ns => .cons n (nodesOf ns)

/-- An element together with its chain of ancestors (nearest first, ending at
the document root).  CSS matching and `closest` need the ancestor chain. -/
abbrev Pos := Node × List Node

mutual
/-- Pre-order list of a node and all its descendants, each with its full
ancestor chain (`anc` is the chain of the node itself). -/
def descsNode (anc : List Node) (n : Node) : List Pos :=
  match n with
  | .mk d cs => (Node.mk d cs, anc) :: descsList (Node.mk d cs :: anc) cs
/-- Pre-order traversal of a sibling list. -/
def descsList (anc : List Node) (ns : NodeList) : List Pos :=
  match ns with
  | .nil => []
  | .cons h t => descsNode anc h ++ descsList anc t
end

/-- `el.querySelectorAll(sel)`: the proper descendants of `p`, in document
order, that match `sel` (matching sees the full ancestor chain, as CSS
selectors are matched against the whole document). -/
def qsaP (p : Pos) (sel : Pos → Bool) : List Pos :=
  (descsList (p.1 :: p.2) p.1.children).filter sel

/-- `document.querySelectorAll(sel)`. -/
def qsaDoc (doc : Node) (sel : Pos → Bool) : List Pos := qsaP (doc, []) sel

/-- The chain of self-and-ancestor positions of an element. -/
def chainP (n : Node) : List Node → List Pos
  | [] => [(n, [])]
  | a :: rest => (n, a :: rest) :: chainP a rest

/-- `el.closest(sel)`: the nearest of the element itself and its ancestors
matching `sel`. -/
def closestP (p : Pos) (sel : Pos → Bool) : Option Pos :=
  (chainP p.1 p.2).find? sel

/-- `el.parentElement` (for a root node there is no parent). -/
def parentPos (p : Pos) : Option Pos :=
  match p.2 with
  | a :: rest => some (a, rest)
  | [] => none

/-- `el.getAttribute(name)`. -/
def getAttrE (d : ElemData) (name : String) : Option String :=
  (d.attrs.find? (fun kv => decide (kv.1 = name))).map (fun kv => kv.2)

/-- Class-attribute membership. -/
def hasClassE (d : ElemData) (c : String) : Bool := decide (c ∈ d.classes)

/-! ### The selectors the script uses -/

/-- `.tax-list-entity-title`. -/
def selEntityTitle (p : Pos) : Bool := hasClassE p.1.data "tax-list-entity-title"

/-- `.tax-list-entity` (used via `closest`). -/
def selEntity (p : Pos) : Bool := hasClassE p.1.data "tax-list-entity"

/-- `.tax-list-file, .tax-list-file a`. -/
def selTaxFile (p : Pos) : Bool :=
  hasClassE p.1.data "tax-list-file" ||
  (decide (p.1.data.tag = "a") && p.2.any (fun a => hasClassE a.data "tax-list-file"))

/-- `a[href$='.pdf'], a[href*='sale'], a[href^='http'], a[href^='/']`. -/
def selFallbackLink (p : Pos) : Bool :=
  decide (p.1.data.tag = "a") &&
  (match getAttrE p.1.data "href" with
   | some h => endsWithS h ".pdf" || containsSubS h "sale" || startsWithS h "http" || startsWithS h "/"
   | none => false)

/-- `h1,h2,h3,strong,b,li`. -/
def selSection (p : Pos) : Bool :=
  decide (p.1.data.tag ∈ ["h1", "h2", "h3", "strong", "b", "li"])

/-- `li,section,div,ul,ol` (used via `closest`). -/
def selContainer (p : Pos) : Bool :=
  decide (p.1.data.tag ∈ ["li", "section", "div", "ul", "ol"])

/-- `a[href]`. -/
def selAnchorWithHref (p : Pos) : Bool :=
  decide (p.1.data.tag = "a") && (getAttrE p.1.data "href").isSome

/-- Bare `a` (used by `matches('a')` / `querySelector('a')`). -/
def selAnchor (p : Pos) : Bool := decide (p.1.data.tag = "a")

/-! ### The in-page extraction script of `_extract_js` -/

/-- The inner anchor chosen by the `record` helper:
`elFile.matches('a') ? elFile : elFile.querySelector('a')`. -/
def recordAnchor (elFile : Pos) : Option Pos :=
  if decide (elFile.1.data.tag = "a") then some elFile
  else (qsaP elFile selAnchor).head?

/-- The text the `record` helper resolves for the label:
`a ? a.innerText : elFile.innerText`. -/
def recordText (elFile : Pos) : String :=
  match recordAnchor elFile with
  | some ap => ap.1.data.innerText
  | none => elFile.1.data.innerText

/-- The `record` arrow function of the script (its `!elFile` early return is
unreachable: it is only invoked on elements produced by `querySelectorAll`). -/
def record (title : String) (elFile : Pos) : RawRecord :=
  let a := recordAnchor elFile
  let t := recordText elFile
  { title := if title = "" then none else some (trimS title)
  , label := if t = "" then none else some (trimS t)
  , href := match a with
            | some ap => getAttrE ap.1.data "href"
            | none => none }

/-- The Tier A loop body for one `.tax-list-entity-title` element. -/
def tierAFilesFor (doc : Node) (e : Pos) : List RawRecord :=
  let title := jsOrS e.1.data.innerText (jsOrS e.1.data.textContent "")
  let root : Pos :=
    match closestP e selEntity with
    | some r => r
    | none =>
      match parentPos e with
      | some p => p
      | none => (doc, [])
  let files := qsaP root selTaxFile
  if files.length > 0 then files.map (record title)
  else (qsaP root selFallbackLink).map (record title)

/-- The substring keyword heuristic `/county|pct|sale|isd|sheriff/i.test(txt)`. -/
def kwHeur (txt : String) : Bool :=
  let low := lowerS txt
  containsSubS low "county" || containsSubS low "pct" || containsSubS low "sale" ||
  containsSubS low "isd" || containsSubS low "sheriff"

/-- The container the Tier B loop resolves for a matched heading:
`s.closest("li,section,div,ul,ol") || s.parentElement || document`. -/
def tierBContainer (doc : Node) (s : Pos) : Pos :=
  match closestP s selContainer with
  | some c => c
  | none =>
    match parentPos s with
    | some p => p
    | none => (doc, [])

/-- The Tier B loop body for one heading-like element (the script's `hit`
flag is write-only and is omitted). -/
def tierBSectionRecords (doc : Node) (s : Pos) : List RawRecord :=
  let txt := trimS (jsOrS s.1.data.innerText "")
  if txt = "" then []
  else if !(txt.toList.any isAsciiAlphaC) then []
  else if !(kwHeur txt) then []
  else
    let container : Pos := tierBContainer doc s
    (qsaP container selAnchorWithHref).filterMap (fun a =>
      let label := trimS (jsOrS a.1.data.innerText (jsOrS a.1.data.textContent ""))
      match getAttrE a.1.data "href" with
      | none => none
      | some h =>
        if h = "" then none
        else if startsWithS h "#" then none
        else some { title := some txt
                  , label := if label = "" then none else some label
                  , href := some h })

/-- The rows pushed to `out` by the in-page script: compute `entities` once,
run the explicit-markup loop when `entities.length > 0` and the heuristic
loop otherwise. -/
def extract_js_rows (doc : Node) : List RawRecord :=
  let entities := qsaDoc doc selEntityTitle
  if entities.length > 0 then
    (entities.map (tierAFilesFor doc)).flatten
  else
    ((qsaDoc doc selSection).map (tierBSectionRecords doc)).flatten

/-- The Tier A extraction path, as a whole-document function. -/
def tierA (doc : Node) : List RawRecord :=
  ((qsaDoc doc selEntityTitle).map (tierAFilesFor doc)).flatten

/-- The Tier B extraction path, as a whole-document function. -/
def tierB (doc : Node) : List RawRecord :=
  ((qsaDoc doc selSection).map (tierBSectionRecords doc)).flatten

/-- `PBFcmsScraper._extract_js`: evaluate the script, then absolutise and
dedupe on the Python side. -/
def extract_js (doc : Node) : List RawRecord := cleanRows (extract_js_rows doc)

/-- `PBFcmsScraper.scrape`, given the rendered document the (out-of-scope)
fetcher produced for `PBF_URL`. -/
def scrape (doc : Node) : ScrapeResult :=
  let raw_rows := extract_js doc
  let norm_rows := raw_rows.map _normalize
  { source_url := PBF_URL
  , count := raw_rows.length
  , raw := raw_rows
  , normalized := norm_rows }

/-! ## Spec-side definitions (for refinement claims)

Each is a second formulation written from the specification's words, to be
compared with the definitions translated from the source. -/

/-- Modelled from the spec: "deduplicate by building a set of seen
(entity_title-or-empty, file_label-or-empty, href-or-empty) keys, scanning
records in original order, keeping only the first occurrence of each key".
A record is kept exactly when no previously scanned record (`pre`) has its
key. -/
def firstOccFrom (pre : List RawRecord) : List RawRecord → List RawRecord
  | [] => []
  | r :: rs =>
    if pre.any (fun p => decide (keyOf p = keyOf r)) then firstOccFrom (pre ++ [r]) rs
    else r :: firstOccFrom (pre ++ [r]) rs

/-- Modelled from the spec: the suffix table `.pdf → "pdf"`, `.doc`/`.docx`
→ `"doc"`, `.xls`/`.xlsx` → `"xls"` applied to the lowercased path component
of the URL (query/fragment excluded), null otherwise and null on null. -/
def spec_file_type (url : Option String) : Option String :=
  match url with
  | none => none
  | some u =>
    let path := String.mk ((pyUrlparseL u.toList []).path.map lowerChar)
    (([(".pdf", "pdf"), (".doc", "doc"), (".docx", "doc"),
       (".xls", "xls"), (".xlsx", "xls")].find?
        (fun e => endsWithS path e.1)).map (fun e => e.2))

/-- Modelled from the spec (§4.3, with "absent" read per §3's "empty string
and null both treated as no value"): entity_title and file_label are the
trimmed raw fields or null when empty after trimming, file_url is the raw
href or null when the record has no href value, file_type is the classifier
applied to file_url. -/
def spec_normalize (r : RawRecord) : NormRecord :=
  let url : Option String :=
    match r.href with
    | some h => if h = "" then none else some h
    | none => none
  { entity_title := if trimS (orEmptyS r.title) = "" then none else some (trimS (orEmptyS r.title))
  , file_label := if trimS (orEmptyS r.label) = "" then none else some (trimS (orEmptyS r.label))
  , file_url := url
  , file_type := file_type url }

/-- Modelled from the spec: a "fully qualified absolute URL" is one whose
scheme component (as `urlparse` reads it) is non-empty. -/
def isAbsoluteUrlS (s : String) : Prop :=
  (pyUrlsplitL s.toList []).scheme ≠ []

/-- No fragment component: the URL contains no `#` at all. -/
def noFragmentS (s : String) : Prop := '#' ∉ s.toList

/-! ## Proof-helper definitions -/

/-- The dedup loop after the canonicalisation step has been factored out:
`cleanLoop rows seen = dedupSeen (rows.map canonRecord) seen`. -/
def dedupSeen : List RawRecord → List (String × String × String) → List RawRecord
  | [], _ => []
  | r :: rs, seen =>
    if keyOf r ∈ seen then dedupSeen rs seen
    else r :: dedupSeen rs (keyOf r :: seen)

/-! ## Concrete rendered documents (witnesses and counterexamples) -/

/-- Element constructor for the sample documents. -/
def elN (tag : String) (classes : List String) (attrs : List (String × String))
    (it tc : String) (cs : List Node) : Node :=
  Node.mk ⟨tag, classes, attrs, it, tc⟩ (nodesOf cs)

/-- A document with one explicit entity title and one file anchor (the spec's
end-to-end scenario). -/
def smithDoc : Node :=
  elN "#document" [] [] "" ""
    [elN "body" [] [] "Smith County Notice" "Smith County Notice"
      [elN "div" ["tax-list-entity"] [] "Smith County Notice" "Smith County Notice"
        [elN "div" ["tax-list-entity-title"] [] "Smith County" "Smith County" [],
         elN "a" ["tax-list-file"] [("href", "/docs/notice.pdf")] "Notice" "Notice" []]]]

/-- A document with an explicit title that yields zero files, while a
heuristic heading with anchors is also present: Tier A is still authoritative
and the heuristic path contributes nothing. -/
def titleNoFilesDoc : Node :=
  elN "#document" [] [] "" ""
    [elN "div" [] [] "" ""
      [elN "span" ["tax-list-entity-title"] [] "Harris County" "Harris County" []],
     elN "li" [] [] "SMITH COUNTY sale" "SMITH COUNTY sale"
      [elN "a" [] [("href", "/sale1.pdf")] "Sale list" "Sale list" []]]

/-- A document without any explicit title element, exercising the heuristic
path (with an in-page anchor and an empty-href anchor that must be skipped). -/
def heuristicDoc : Node :=
  elN "#document" [] [] "" ""
    [elN "ul" [] [] "" ""
      [elN "li" [] [] "SMITH COUNTY" "SMITH COUNTY"
        [elN "a" [] [("href", "/sale1.pdf")] "Sale list" "Sale list" [],
         elN "a" [] [("href", "#top")] "top" "top" [],
         elN "a" [] [("href", "")] "empty" "empty" []]],
     elN "h2" [] [] "no keyword here" "no keyword here" []]

/-- A document whose title element has whitespace-only visible text (empty
rendered `innerText`, whitespace `textContent`). -/
def wsTitleDoc : Node :=
  elN "#document" [] [] "" ""
    [elN "div" ["tax-list-entity"] [] "Notice" " Notice"
      [elN "div" ["tax-list-entity-title"] [] "" " " [],
       elN "a" ["tax-list-file"] [("href", "/n.pdf")] "Notice" "Notice" []]]

/-- A document whose file anchor carries an empty `href` attribute. -/
def emptyHrefDoc : Node :=
  elN "#document" [] [] "" ""
    [elN "div" ["tax-list-entity"] [] "Tarrant County x" "Tarrant County x"
      [elN "div" ["tax-list-entity-title"] [] "Tarrant County" "Tarrant County" [],
       elN "a" ["tax-list-file"] [("href", "")] "x" "x" []]]

/-! ## Lemmas about the canonicalise-and-dedupe loop -/

theorem cleanLoop_eq_dedupSeen (rows : List RawRecord)
    (seen : List (String × String × String)) :
    cleanLoop rows seen = dedupSeen (rows.map canonRecord) seen := by
  induction rows generalizing seen with
  | nil => rfl
  | cons r rs ih =>
    simp only [cleanLoop, List.map_cons, dedupSeen]
    split <;> simp [ih]

theorem dedupSeen_eq_firstOccFrom (l : List RawRecord) :
    ∀ (seen : List (String × String × String)) (pre : List RawRecord),
    (∀ k, k ∈ seen ↔ ∃ p ∈ pre, keyOf p = k) →
    dedupSeen l seen = firstOccFrom pre l := by
  induction l with
  | nil => intro seen pre _; rfl
  | cons r rs ih =>
    intro seen pre h
    by_cases hk : keyOf r ∈ seen
    · have hany : (pre.any fun p => decide (keyOf p = keyOf r)) = true := by
        rw [List.any_eq_true]
        obtain ⟨p, hp, hpk⟩ := (h (keyOf r)).mp hk
        exact ⟨p, hp, by simpa using hpk⟩
      rw [dedupSeen, if_pos hk, firstOccFrom, if_pos hany]
      refine ih seen (pre ++ [r]) (fun k => ?_)
      rw [h k]
      constructor
      · rintro ⟨p, hp, hpk⟩; exact ⟨p, by simp [hp], hpk⟩
      · rintro ⟨p, hp, hpk⟩
        rcases List.mem_append.mp hp with hp | hp
        · exact ⟨p, hp, hpk⟩
        · have : p = r := by simpa using hp
          subst this; subst hpk
          exact (h _).mp hk
    · have hany : (pre.any fun p => decide (keyOf p = keyOf r)) = false := by
        rw [List.any_eq_false]
        intro p hp hpk
        rw [decide_eq_true_eq] at hpk
        exact hk ((h (keyOf r)).mpr ⟨p, hp, hpk⟩)
      rw [dedupSeen, if_neg hk, firstOccFrom, hany]
      simp only [Bool.false_eq_true, if_false]
      congr 1
      refine ih (keyOf r :: seen) (pre ++ [r]) (fun k => ?_)
      constructor
      · intro hks
        rcases List.mem_cons.mp hks with rfl | hks
        · exact ⟨r, List.mem_append_right _ (by simp), rfl⟩
        · obtain ⟨p, hp, hpk⟩ := (h k).mp hks
          exact ⟨p, List.mem_append_left _ hp, hpk⟩
      · rintro ⟨p, hp, hpk⟩
        rcases List.mem_append.mp hp with hp | hp
        · exact List.mem_cons_of_mem _ ((h k).mpr ⟨p, hp, hpk⟩)
        · have hpr : p = r := by simpa using hp
          subst hpr; subst hpk
          exact List.mem_cons_self _ _

theorem dedupSeen_pairwise (l : List RawRecord) :
    ∀ seen, (dedupSeen l seen).Pairwise (fun a b => keyOf a ≠ keyOf b) ∧
      ∀ r ∈ dedupSeen l seen, keyOf r ∉ seen := by
  induction l with
  | nil => intro seen; exact ⟨List.Pairwise.nil, by simp [dedupSeen]⟩
  | cons r rs ih =>
    intro seen
    by_cases hk : keyOf r ∈ seen
    · simpa [dedupSeen, hk] using ih seen
    · rw [dedupSeen, if_neg hk]
      obtain ⟨hpw, hnotin⟩ := ih (keyOf r :: seen)
      refine ⟨List.Pairwise.cons ?_ hpw, ?_⟩
      · intro b hb hab
        exact hnotin b hb (by rw [← hab]; exact List.mem_cons_self _ _)
      · intro x hx
        rcases List.mem_cons.mp hx with rfl | hx
        · exact hk
        · intro hxs
          exact hnotin x hx (List.mem_cons_of_mem _ hxs)

theorem dedupSeen_sublist (l : List RawRecord) :
    ∀ seen, (dedupSeen l seen).Sublist l := by
  induction l with
  | nil => intro seen; simp [dedupSeen]
  | cons r rs ih =>
    intro seen
    rw [dedupSeen]
    split
    · exact (ih seen).cons r
    · exact (ih (keyOf r :: seen)).cons₂ r

theorem cleanRows_pairwise (rows : List RawRecord) :
    (cleanRows rows).Pairwise (fun a b => keyOf a ≠ keyOf b) := by
  rw [cleanRows, cleanLoop_eq_dedupSeen]
  exact (dedupSeen_pairwise _ _).1

/-! ## Claim C2 -/

/-- C2: for every extracted row sequence, the returned raw sequence has no
two records sharing a (title-or-empty, label-or-empty, href-or-empty) key; it
is exactly the spec's first-occurrence filtering of the canonicalised input,
and a subsequence of the canonicalised input in original order (no sorting). -/
theorem C2_dedup_exactness (rows : List RawRecord) :
    (cleanRows rows).Pairwise (fun a b => keyOf a ≠ keyOf b) ∧
    cleanRows rows = firstOccFrom [] (rows.map canonRecord) ∧
    (cleanRows rows).Sublist (rows.map canonRecord) := by
  refine ⟨cleanRows_pairwise rows, ?_, ?_⟩
  · rw [cleanRows, cleanLoop_eq_dedupSeen]
    exact dedupSeen_eq_firstOccFrom _ [] [] (by simp)
  · rw [cleanRows, cleanLoop_eq_dedupSeen]
    exact dedupSeen_sublist _ _

/-! ## Claim C7 -/

/-- C7: deduplication treats a null field and an empty-string field as the
same key component: two records that differ only in one field being null
versus the empty string cannot both appear in the final raw sequence. -/
theorem C7_null_vs_empty_collapse (rows : List RawRecord) (r1 r2 : RawRecord)
    (hdiff :
      (r1.title = none ∧ r2.title = some "" ∧ r1.label = r2.label ∧ r1.href = r2.href) ∨
      (r1.label = none ∧ r2.label = some "" ∧ r1.title = r2.title ∧ r1.href = r2.href) ∨
      (r1.href = none ∧ r2.href = some "" ∧ r1.title = r2.title ∧ r1.label = r2.label)) :
    ¬(r1 ∈ cleanRows rows ∧ r2 ∈ cleanRows rows) := by
  have hkey : keyOf r1 = keyOf r2 := by
    rcases hdiff with ⟨h1, h2, h3, h4⟩ | ⟨h1, h2, h3, h4⟩ | ⟨h1, h2, h3, h4⟩ <;>
      simp [keyOf, h1, h2, h3, h4, orEmptyS]
  have hne : r1 ≠ r2 := by
    rcases hdiff with ⟨h1, h2, _, _⟩ | ⟨h1, h2, _, _⟩ | ⟨h1, h2, _, _⟩ <;>
      · intro hEq
        rw [hEq, h2] at h1
        exact Option.noConfusion h1
  rintro ⟨hm1, hm2⟩
  have hsymm : Symmetric (fun a b : RawRecord => keyOf a ≠ keyOf b) :=
    fun _ _ h => h.symm
  exact (cleanRows_pairwise rows).forall hsymm hm1 hm2 hne hkey

/-- Witness for C7 at a concrete pair differing only in title null vs empty. -/
theorem C7_witness :
    ¬((⟨none, some "x", none⟩ : RawRecord) ∈
        cleanRows [⟨none, some "x", none⟩, ⟨some "", some "x", none⟩] ∧
      (⟨some "", some "x", none⟩ : RawRecord) ∈
        cleanRows [⟨none, some "x", none⟩, ⟨some "", some "x", none⟩]) :=
  C7_null_vs_empty_collapse _ _ _ (Or.inl ⟨rfl, rfl, rfl, rfl⟩)

/-! ## Claim C8 -/

/-- C8: `start` and `stop` are idempotent on the lifecycle state: `start`
when the browser is already started is a no-op, `stop` when already stopped
is a no-op (and both are idempotent as functions). -/
theorem C8_lifecycle_idempotent (s : ScraperState) :
    start (start s) = start s ∧ stop (stop s) = stop s ∧
    (s.browser = true → start s = s) ∧
    (s.browser = false ∧ s.pw = false → stop s = s) := by
  rcases s with ⟨pw, browser⟩
  cases pw <;> cases browser <;> simp [start, stop]

/-- Witness for C8 at the started and the stopped state. -/
theorem C8_witness :
    start ⟨true, true⟩ = (⟨true, true⟩ : ScraperState) ∧
    stop ⟨false, false⟩ = (⟨false, false⟩ : ScraperState) :=
  ⟨(C8_lifecycle_idempotent ⟨true, true⟩).2.2.1 rfl,
   (C8_lifecycle_idempotent ⟨false, false⟩).2.2.2 ⟨rfl, rfl⟩⟩

/-! ## Claim C9 -/

/-- C9: at the normalized interface an empty-string href behaves exactly like
an absent one: the normalizer yields null `file_url` and null `file_type`,
and the classifier itself returns null on the empty string. -/
theorem C9_empty_href_like_absent (r : RawRecord) (h : r.href = some "") :
    (_normalize r).file_url = none ∧ (_normalize r).file_type = none ∧
    file_type (some "") = none := by
  refine ⟨?_, ?_, rfl⟩ <;> simp [_normalize, h, file_type]

/-- Witness for C9 at a concrete record with empty href. -/
theorem C9_witness :
    (_normalize ⟨some "t", none, some ""⟩).file_url = none ∧
    (_normalize ⟨some "t", none, some ""⟩).file_type = none ∧
    file_type (some "") = none :=
  C9_empty_href_like_absent ⟨some "t", none, some ""⟩ rfl

/-! ## Claim C5 -/

/-- C5: for every scrape result, `len(raw) = len(normalized) = count`, and
each normalized record is the normalization of the raw record at the same
index; `_normalize` itself agrees with the spec's description of the
normalization. -/
theorem C5_index_alignment (doc : Node) :
    (scrape doc).raw.length = (scrape doc).normalized.length ∧
    (scrape doc).count = (scrape doc).raw.length ∧
    (∀ i : Nat, (scrape doc).normalized[i]? = ((scrape doc).raw[i]?).map _normalize) ∧
    (∀ r : RawRecord, _normalize r = spec_normalize r) := by
  refine ⟨by simp [scrape], rfl, fun i => by simp [scrape], fun r => ?_⟩
  simp only [_normalize, spec_normalize, stripOrNone]

/-! ## Claim C4 -/

theorem classify_chain_eq_table (p : String) :
    (if endsWithS p ".pdf" then some "pdf"
     else if endsWithS p ".doc" || endsWithS p ".docx" then some "doc"
     else if endsWithS p ".xls" || endsWithS p ".xlsx" then some "xls"
     else none) =
    (([(".pdf", "pdf"), (".doc", "doc"), (".docx", "doc"),
       (".xls", "xls"), (".xlsx", "xls")].find?
        (fun e => endsWithS p e.1)).map (fun e => e.2)) := by
  by_cases h1 : endsWithS p ".pdf" <;>
  by_cases h2 : endsWithS p ".doc" <;>
  by_cases h3 : endsWithS p ".docx" <;>
  by_cases h4 : endsWithS p ".xls" <;>
  by_cases h5 : endsWithS p ".xlsx" <;>
  simp [h1, h2, h3, h4, h5, List.find?]

/-- C4: the file-type classifier is null on null, and otherwise classifies
the lowercased path component by suffix exactly as the spec's table says;
in particular on the spec's four sample inputs. -/
theorem C4_file_type_classifier :
    (∀ u : Option String, file_type u = spec_file_type u) ∧
    file_type (some "https://x/y/doc.PDF") = some "pdf" ∧
    file_type (some "https://x/y/report.docx") = some "doc" ∧
    file_type (some "https://x/y/page.html") = none ∧
    file_type none = none := by
  refine ⟨?_, by decide, by decide, by decide, rfl⟩
  intro u
  match u with
  | none => rfl
  | some s =>
    by_cases hs : s = ""
    · subst hs; decide
    · show (if s = "" then none
            else
              let path := String.mk ((pyUrlparseL s.toList []).path.map lowerChar)
              if endsWithS path ".pdf" then some "pdf"
              else if endsWithS path ".doc" || endsWithS path ".docx" then some "doc"
              else if endsWithS path ".xls" || endsWithS path ".xlsx" then some "xls"
              else none) = _
      rw [if_neg hs]
      exact classify_chain_eq_table _

/-! ## Claim C1 -/

/-- C1: the extraction strategy is chosen once per document: when at least
one `.tax-list-entity-title` element exists, the emitted raw records are
exactly the (deduplicated) Tier A output and the Tier B loop contributes
nothing, even when some titles yield zero files; with zero such elements the
records are exactly the (deduplicated) Tier B output. -/
theorem C1_tier_exclusivity (doc : Node) :
    (0 < (qsaDoc doc selEntityTitle).length → extract_js doc = cleanRows (tierA doc)) ∧
    ((qsaDoc doc selEntityTitle).length = 0 → extract_js doc = cleanRows (tierB doc)) := by
  constructor
  · intro h
    simp only [extract_js, extract_js_rows, tierA]
    rw [if_pos h]
  · intro h
    simp only [extract_js, extract_js_rows, tierB]
    rw [if_neg (by omega)]

/-- Witness for C1: a document whose single explicit title yields zero files
(and which carries a heuristic-matching heading) still produces the Tier A
output — empty — while Tier B alone would have produced records; and a
document with zero explicit titles produces the Tier B output. -/
theorem C1_witness :
    0 < (qsaDoc titleNoFilesDoc selEntityTitle).length ∧
    extract_js titleNoFilesDoc = cleanRows (tierA titleNoFilesDoc) ∧
    extract_js titleNoFilesDoc = [] ∧
    tierB titleNoFilesDoc ≠ [] ∧
    (qsaDoc heuristicDoc selEntityTitle).length = 0 ∧
    extract_js heuristicDoc = cleanRows (tierB heuristicDoc) :=
  ⟨by decide, (C1_tier_exclusivity titleNoFilesDoc).1 (by decide), by decide, by decide,
   by decide, (C1_tier_exclusivity heuristicDoc).2 (by decide)⟩

/-! ## Claim C6 (corrected) -/

/-- C6 counterexample: in `wsTitleDoc` the title element's visible text is
the whitespace string `" "` (rendered `innerText` is empty, so the script
falls back to `textContent`), which is empty after trimming; the claim then
requires entity_title null, but the emitted record carries the empty string.
The file element's behaviour (non-null label) is as claimed. -/
theorem C6_counterexample :
    jsOrS "" (jsOrS " " "") = " " ∧
    trimS " " = "" ∧
    extract_js wsTitleDoc =
      [{ title := some "", label := some "Notice",
         href := some "https://www.pbfcm.com/n.pdf" }] ∧
    (some "" : Option String) ≠ none :=
  ⟨by decide, by decide, by decide, by decide⟩

/-- C6 (amended): in Tier A's record function a title that is the empty
string yields entity_title null, while a non-empty (e.g. whitespace-only)
title yields its trim — possibly the empty string, not null; a file element
whose resolved text is non-empty yields its trimmed text as file_label (an
empty string when the text was whitespace-only, not null); and file_label is
null exactly when the resolved visible text is the empty string. -/
theorem C6_record_null_vs_empty (title : String) (elFile : Pos) :
    (title = "" → (record title elFile).title = none) ∧
    (title ≠ "" → (record title elFile).title = some (trimS title)) ∧
    ((record title elFile).label = none ↔ recordText elFile = "") ∧
    (recordText elFile ≠ "" → (record title elFile).label = some (trimS (recordText elFile))) := by
  refine ⟨fun h => by simp [record, h], fun h => by simp [record, h], ?_, fun h => by simp [record, h]⟩
  by_cases ht : recordText elFile = "" <;> simp [record, ht]

/-- Witness for C6 at concrete titles and file elements. -/
theorem C6_witness :
    (record "" (elN "a" [] [("href", "/x.pdf")] "L" "L" [], ([] : List Node))).title = none ∧
    (" " : String) ≠ "" ∧
    (record " " (elN "a" [] [("href", "/x.pdf")] " " " " [], ([] : List Node))).title = some (trimS " ") ∧
    recordText (elN "a" [] [("href", "/x.pdf")] " " " " [], ([] : List Node)) ≠ "" ∧
    (record " " (elN "a" [] [("href", "/x.pdf")] " " " " [], ([] : List Node))).label =
      some (trimS (recordText (elN "a" [] [("href", "/x.pdf")] " " " " [], ([] : List Node)))) :=
  ⟨(C6_record_null_vs_empty "" (elN "a" [] [("href", "/x.pdf")] "L" "L" [], ([] : List Node))).1 rfl,
   by decide,
   (C6_record_null_vs_empty " " (elN "a" [] [("href", "/x.pdf")] " " " " [], ([] : List Node))).2.1 (by decide),
   by decide,
   (C6_record_null_vs_empty " " (elN "a" [] [("href", "/x.pdf")] " " " " [], ([] : List Node))).2.2.2 (by decide)⟩

/-! ## Claim C10 -/

/-- C10: every record emitted by the Tier B heuristic path is produced from a
matched heading-like section of the document and an `a[href]` anchor inside
that section's resolved container: its entity_title is that section's trimmed,
non-empty heading text (non-null), its href is that anchor's href attribute
(non-null, non-empty, not starting with `#`), and its file_label is null
exactly when that anchor's trimmed resolved text is empty — otherwise it is
that trimmed text. -/
theorem C10_tierB_shape (doc : Node) (r : RawRecord) (hr : r ∈ tierB doc) :
    ∃ s ∈ qsaDoc doc selSection, ∃ a ∈ qsaP (tierBContainer doc s) selAnchorWithHref,
      r.title = some (trimS (jsOrS s.1.data.innerText "")) ∧
      trimS (jsOrS s.1.data.innerText "") ≠ "" ∧
      (∃ h, getAttrE a.1.data "href" = some h ∧ r.href = some h ∧ h ≠ "" ∧
        startsWithS h "#" = false) ∧
      (r.label = none ↔ trimS (jsOrS a.1.data.innerText (jsOrS a.1.data.textContent "")) = "") ∧
      (trimS (jsOrS a.1.data.innerText (jsOrS a.1.data.textContent "")) ≠ "" →
        r.label = some (trimS (jsOrS a.1.data.innerText (jsOrS a.1.data.textContent "")))) := by
  rw [tierB, List.mem_flatten] at hr
  obtain ⟨recs, hrecs, hrmem⟩ := hr
  rw [List.mem_map] at hrecs
  obtain ⟨s, hs, rfl⟩ := hrecs
  simp only [tierBSectionRecords] at hrmem
  split at hrmem
  · cases hrmem
  rename_i htxt
  split at hrmem
  · cases hrmem
  split at hrmem
  · cases hrmem
  rw [List.mem_filterMap] at hrmem
  obtain ⟨a, ha, hfa⟩ := hrmem
  cases hh : getAttrE a.1.data "href" with
  | none => rw [hh] at hfa; cases hfa
  | some h =>
    rw [hh] at hfa
    simp only [] at hfa
    split at hfa
    · cases hfa
    split at hfa
    · cases hfa
    rename_i hne hhash
    obtain rfl := Option.some.inj hfa
    refine ⟨s, hs, a, ha, rfl, htxt,
            ⟨h, hh, rfl, hne, by simpa using hhash⟩, ?_, ?_⟩
    · by_cases hl : trimS (jsOrS a.1.data.innerText (jsOrS a.1.data.textContent "")) = "" <;>
        simp [hl]
    · intro hl
      simp [hl]

/-- Witness for C10 at the heuristic sample document's single record. -/
theorem C10_witness :
    ∃ s ∈ qsaDoc heuristicDoc selSection,
      ∃ a ∈ qsaP (tierBContainer heuristicDoc s) selAnchorWithHref,
        (RawRecord.mk (some "SMITH COUNTY") (some "Sale list") (some "/sale1.pdf")).title =
          some (trimS (jsOrS s.1.data.innerText "")) ∧
        trimS (jsOrS s.1.data.innerText "") ≠ "" ∧
        (∃ h, getAttrE a.1.data "href" = some h ∧
          (RawRecord.mk (some "SMITH COUNTY") (some "Sale list") (some "/sale1.pdf")).href = some h ∧
          h ≠ "" ∧ startsWithS h "#" = false) ∧
        ((RawRecord.mk (some "SMITH COUNTY") (some "Sale list") (some "/sale1.pdf")).label = none ↔
          trimS (jsOrS a.1.data.innerText (jsOrS a.1.data.textContent "")) = "") ∧
        (trimS (jsOrS a.1.data.innerText (jsOrS a.1.data.textContent "")) ≠ "" →
          (RawRecord.mk (some "SMITH COUNTY") (some "Sale list") (some "/sale1.pdf")).label =
            some (trimS (jsOrS a.1.data.innerText (jsOrS a.1.data.textContent "")))) :=
  C10_tierB_shape heuristicDoc ⟨some "SMITH COUNTY", some "Sale list", some "/sale1.pdf"⟩ (by decide)

/-! ## Claim C3: fragment-freedom of the canonicalised URLs -/

theorem schemeChar_lower {c : Char} (h : isSchemeCharC c = true) :
    isSchemeCharC (lowerChar c) = true := by
  unfold lowerChar
  split <;> first | decide | exact h

theorem alpha_lower {c : Char} (h : isAsciiAlphaC c = true) :
    isAsciiAlphaC (lowerChar c) = true := by
  unfold lowerChar
  split <;> first | decide | exact h

theorem schemeChar_ne_of {c x : Char} (h : isSchemeCharC c = true)
    (hx : isSchemeCharC x = false) : c ≠ x := by
  intro hEq; rw [hEq, hx] at h; cases h

theorem no_hash_of_all_schemeChar {l : List Char}
    (hall : l.all isSchemeCharC = true) : '#' ∉ l.map lowerChar := by
  intro hm
  rw [List.mem_map] at hm
  obtain ⟨c, hc, hlc⟩ := hm
  have hcs := schemeChar_lower (List.all_eq_true.mp hall c hc)
  rw [hlc] at hcs
  cases hcs

theorem not_mem_beforeChar (c : Char) (l : List Char) : c ∉ beforeChar c l := by
  intro hm
  have := List.mem_takeWhile_imp hm
  simp at this

theorem no_hash_u3 (r2 : List Char) :
    '#' ∉ (if containsC '#' r2 then beforeChar '#' r2 else r2) := by
  split
  · exact not_mem_beforeChar '#' r2
  · rename_i hc; simpa [containsC] using hc

theorem no_hash_pq (u3 : List Char) (hu3 : '#' ∉ u3) :
    '#' ∉ (if containsC '?' u3 then beforeChar '?' u3 else u3) ∧
    '#' ∉ (if containsC '?' u3 then afterChar '?' u3 else ([] : List Char)) := by
  constructor
  · split
    · exact fun hm => hu3 ((List.takeWhile_sublist _).mem hm)
    · exact hu3
  · split
    · exact fun hm =>
        hu3 (((List.drop_sublist 1 _).trans (List.dropWhile_sublist _)).mem hm)
    · simp

theorem no_hash_netloc (C : Prop) [Decidable C] (x : List Char) :
    '#' ∉ (if C then x.takeWhile (fun c => !(containsC c ['/', '?', '#'])) else []) := by
  split
  · intro hm
    have := List.mem_takeWhile_imp hm
    simp [containsC] at this
  · simp

theorem urlsplit_no_hash (u d : List Char) (hd : '#' ∉ d) :
    '#' ∉ (pyUrlsplitL u d).scheme ∧ '#' ∉ (pyUrlsplitL u d).netloc ∧
    '#' ∉ (pyUrlsplitL u d).path ∧ '#' ∉ (pyUrlsplitL u d).query := by
  simp only [pyUrlsplitL]
  refine ⟨?_, ?_, ?_, ?_⟩
  · split
    · rename_i hok
      simp only [Bool.and_eq_true] at hok
      exact no_hash_of_all_schemeChar hok.2
    · exact hd
  · exact no_hash_netloc _ _
  · exact (no_hash_pq _ (no_hash_u3 _)).1
  · exact (no_hash_pq _ (no_hash_u3 _)).2

theorem splitparams_subset (l : List Char) :
    (∀ x ∈ (splitparamsL l).1, x ∈ l) ∧ (∀ x ∈ (splitparamsL l).2, x ∈ l) := by
  have hseg : ∀ x ∈ (l.reverse.takeWhile (fun y => !(decide (y = '/')))).reverse, x ∈ l := by
    intro x hx
    rw [List.mem_reverse] at hx
    have := (List.takeWhile_sublist _).mem hx
    rwa [List.mem_reverse] at this
  simp only [splitparamsL]
  split
  · split
    · constructor
      · intro x hx
        rcases List.mem_append.mp hx with hx | hx
        · exact (List.take_sublist _ _).mem hx
        · exact hseg x ((List.takeWhile_sublist _).mem hx)
      · intro x hx
        exact hseg x (((List.drop_sublist 1 _).trans (List.dropWhile_sublist _)).mem hx)
    · exact ⟨fun x hx => hx, by simp⟩
  · constructor
    · exact fun x hx => (List.takeWhile_sublist _).mem hx
    · exact fun x hx => ((List.drop_sublist 1 _).trans (List.dropWhile_sublist _)).mem hx

theorem urlparse_no_hash (u d : List Char) (hd : '#' ∉ d) :
    '#' ∉ (pyUrlparseL u d).scheme ∧ '#' ∉ (pyUrlparseL u d).netloc ∧
    '#' ∉ (pyUrlparseL u d).path ∧ '#' ∉ (pyUrlparseL u d).params ∧
    '#' ∉ (pyUrlparseL u d).query := by
  obtain ⟨h1, h2, h3, h4⟩ := urlsplit_no_hash u d hd
  simp only [pyUrlparseL]
  split
  · exact ⟨h1, h2, fun hm => h3 ((splitparams_subset _).1 _ hm),
          fun hm => h3 ((splitparams_subset _).2 _ hm), h4⟩
  · exact ⟨h1, h2, h3, by simp, h4⟩

theorem unparse_no_hash (s n p prm q : List Char)
    (hs : '#' ∉ s) (hn : '#' ∉ n) (hp : '#' ∉ p) (hprm : '#' ∉ prm) (hq : '#' ∉ q) :
    '#' ∉ pyUrlunparseL s n p prm q [] := by
  have c1 : ('#' : Char) ≠ ':' := by decide
  have c2 : ('#' : Char) ≠ '/' := by decide
  have c3 : ('#' : Char) ≠ '?' := by decide
  have c4 : ('#' : Char) ≠ ';' := by decide
  simp only [pyUrlunparseL, pyUrlunsplitL]
  split_ifs <;>
    simp_all [List.mem_append, List.mem_cons]

theorem defrag_no_hash (u : List Char) : '#' ∉ pyUrldefragL u := by
  rw [pyUrldefragL]
  split
  · obtain ⟨h1, h2, h3, h4, h5⟩ := urlparse_no_hash u [] (by simp)
    exact unparse_no_hash _ _ _ _ _ h1 h2 h3 h4 h5
  · rename_i hc; simpa [containsC] using hc

/-! ## Claim C3: absoluteness of the canonicalised URLs -/

theorem alpha_not_c0 {c : Char} (h : isAsciiAlphaC c = true) : isC0OrSpaceC c = false := by
  simp only [isAsciiAlphaC, isAsciiUpperC, isAsciiLowerC, Bool.or_eq_true, Bool.and_eq_true,
    decide_eq_true_eq] at h
  simp only [isC0OrSpaceC, decide_eq_false_iff_not]
  omega

theorem schemeChar_toNat {c : Char} (h : isSchemeCharC c = true) : 43 ≤ c.toNat := by
  simp only [isSchemeCharC, isAsciiAlphaC, isAsciiUpperC, isAsciiLowerC, isAsciiDigitC,
    Bool.or_eq_true, Bool.and_eq_true, decide_eq_true_eq] at h
  rcases h with ((((h | h) | h) | h) | h) | h
  · omega
  · omega
  · omega
  · subst h; decide
  · subst h; decide
  · subst h; decide

theorem schemeChar_not_bad {c : Char} (h : isSchemeCharC c = true) : isBadUrlByteC c = false := by
  have h43 := schemeChar_toNat h
  simp only [isBadUrlByteC, Bool.or_eq_false_iff, decide_eq_false_iff_not]
  refine ⟨⟨fun hc => ?_, fun hc => ?_⟩, fun hc => ?_⟩ <;>
    (subst hc; exact absurd h43 (by decide))

theorem dropWhile_schemePrefix (c : Char) (rest : List Char) (hc : isAsciiAlphaC c = true) :
    (c :: rest).dropWhile isC0OrSpaceC = c :: rest := by
  rw [List.dropWhile_cons]
  simp [alpha_not_c0 hc]

theorem filter_schemePrefix (s tail : List Char) (hall : s.all isSchemeCharC = true) :
    (s ++ ':' :: tail).filter (fun c => !(isBadUrlByteC c)) =
      s ++ ':' :: tail.filter (fun c => !(isBadUrlByteC c)) := by
  rw [List.filter_append]
  have hcolon : isBadUrlByteC ':' = false := by decide
  rw [List.filter_cons]
  simp only [hcolon, Bool.not_false, if_true]
  congr 1
  apply List.filter_eq_self.mpr
  intro a ha
  simp [schemeChar_not_bad (List.all_eq_true.mp hall a ha)]

theorem takeWhile_append_cons {p : Char → Bool} (l : List Char) (x : Char) (t : List Char)
    (hl : ∀ a ∈ l, p a = true) (hx : p x = false) :
    (l ++ x :: t).takeWhile p = l := by
  induction l with
  | nil => simp [List.takeWhile_cons, hx]
  | cons a as ih =>
    have ha := hl a (List.mem_cons_self a as)
    simp [List.takeWhile_cons, ha, ih (fun b hb => hl b (List.mem_cons_of_mem _ hb))]

theorem drop_append_cons (l : List Char) (x : Char) (t : List Char) :
    (l ++ x :: t).drop (l.length + 1) = t := by
  induction l with
  | nil => simp
  | cons a as ih => simpa using ih

theorem urlsplit_scheme_reparse (s tail d : List Char)
    (hne : s ≠ []) (hall : s.all isSchemeCharC = true)
    (halpha : isAsciiAlphaC (s.headD 'x') = true) :
    (pyUrlsplitL (s ++ ':' :: tail) d).scheme = s.map lowerChar := by
  obtain ⟨c, s', rfl⟩ := List.exists_cons_of_ne_nil hne
  have hc : isAsciiAlphaC c = true := by simpa using halpha
  have h1 : ((c :: s') ++ ':' :: tail).dropWhile isC0OrSpaceC = (c :: s') ++ ':' :: tail := by
    rw [List.cons_append]
    exact List.cons_append c s' (':' :: tail) ▸ dropWhile_schemePrefix c (s' ++ ':' :: tail) hc
  have h2 : ((c :: s') ++ ':' :: tail).filter (fun x => !(isBadUrlByteC x)) =
      (c :: s') ++ ':' :: tail.filter (fun x => !(isBadUrlByteC x)) :=
    filter_schemePrefix _ _ hall
  have h3 : ((c :: s') ++ ':' :: tail.filter (fun x => !(isBadUrlByteC x))).takeWhile
      (fun x => !(decide (x = ':'))) = c :: s' := by
    apply takeWhile_append_cons
    · intro a ha
      simp [schemeChar_ne_of (List.all_eq_true.mp hall a ha)
        (show isSchemeCharC ':' = false by decide)]
    · simp
  have hcont : containsC ':' ((c :: s') ++ ':' :: tail.filter (fun x => !(isBadUrlByteC x))) = true := by
    simp [containsC]
  simp only [pyUrlsplitL, h1, h2, h3, hcont]
  simp [hc, hall]

theorem urlsplit_scheme_cases (u : List Char) :
    (∀ d : List Char, (pyUrlsplitL u d).scheme = d) ∨
    ((∀ d : List Char, (pyUrlsplitL u d).scheme = (pyUrlsplitL u []).scheme) ∧
     (pyUrlsplitL u []).scheme ≠ [] ∧
     (pyUrlsplitL u []).scheme.all isSchemeCharC = true ∧
     isAsciiAlphaC ((pyUrlsplitL u []).scheme.headD 'x') = true) := by
  by_cases hok :
    (containsC ':' ((u.dropWhile isC0OrSpaceC).filter (fun c => !(isBadUrlByteC c))) &&
     !(decide (((u.dropWhile isC0OrSpaceC).filter (fun c => !(isBadUrlByteC c))).takeWhile
         (fun c => !(decide (c = ':'))) = [])) &&
     isAsciiAlphaC ((((u.dropWhile isC0OrSpaceC).filter (fun c => !(isBadUrlByteC c))).takeWhile
         (fun c => !(decide (c = ':')))).headD 'x') &&
     (((u.dropWhile isC0OrSpaceC).filter (fun c => !(isBadUrlByteC c))).takeWhile
         (fun c => !(decide (c = ':')))).all isSchemeCharC) = true
  · right
    have hval : ∀ d : List Char, (pyUrlsplitL u d).scheme =
        (((u.dropWhile isC0OrSpaceC).filter (fun c => !(isBadUrlByteC c))).takeWhile
          (fun c => !(decide (c = ':')))).map lowerChar := by
      intro d
      simp only [pyUrlsplitL, hok, if_true]
    obtain ⟨hc1, hc2, hc3, hc4⟩ :
        _ ∧ _ ∧ _ ∧ _ := by
      simpa only [Bool.and_eq_true, and_assoc] using hok
    set pre := ((u.dropWhile isC0OrSpaceC).filter (fun c => !(isBadUrlByteC c))).takeWhile
      (fun c => !(decide (c = ':'))) with hpre
    have hprene : pre ≠ [] := by simpa using hc2
    obtain ⟨c, s', hcs⟩ := List.exists_cons_of_ne_nil hprene
    refine ⟨fun d => by rw [hval d, hval []], ?_, ?_, ?_⟩
    · rw [hval []]
      simp [hcs]
    · rw [hval [], List.all_eq_true]
      intro x hx
      rw [List.mem_map] at hx
      obtain ⟨a, ha, rfl⟩ := hx
      exact schemeChar_lower (List.all_eq_true.mp hc4 a ha)
    · rw [hval [], hcs]
      simp only [List.map_cons, List.headD_cons]
      apply alpha_lower
      rw [hcs] at hc3
      simpa using hc3
  · left
    intro d
    simp only [pyUrlsplitL]
    rw [if_neg hok]

theorem urlparse_scheme (u d : List Char) :
    (pyUrlparseL u d).scheme = (pyUrlsplitL u d).scheme := by
  simp only [pyUrlparseL]
  split <;> rfl

theorem unparse_scheme_cons (s n p prm q f : List Char) (hs : s ≠ []) :
    ∃ t, pyUrlunparseL s n p prm q f = s ++ ':' :: t := by
  have hsd : (!(decide (s = []))) = true := by simp [hs]
  simp only [pyUrlunparseL, pyUrlunsplitL, hsd, if_true]
  split
  · split
    · exact ⟨_, by simp <;> rfl⟩
    · exact ⟨_, by simp <;> rfl⟩
  · split
    · exact ⟨_, by simp <;> rfl⟩
    · exact ⟨_, rfl⟩

theorem defrag_scheme_nonempty_of_parse (u : List Char)
    (h1 : (pyUrlsplitL u []).scheme ≠ [])
    (h2 : (pyUrlsplitL u []).scheme.all isSchemeCharC = true)
    (h3 : isAsciiAlphaC ((pyUrlsplitL u []).scheme.headD 'x') = true) :
    (pyUrlsplitL (pyUrldefragL u) []).scheme ≠ [] := by
  rw [pyUrldefragL]
  split
  · obtain ⟨t2, ht2⟩ := unparse_scheme_cons ((pyUrlparseL u []).scheme)
      ((pyUrlparseL u []).netloc) ((pyUrlparseL u []).path) ((pyUrlparseL u []).params)
      ((pyUrlparseL u []).query) [] (by rw [urlparse_scheme]; exact h1)
    rw [ht2, urlparse_scheme, urlsplit_scheme_reparse _ t2 [] h1 h2 h3]
    simpa using h1
  · exact h1

theorem defrag_unparse_scheme (s n p prm q f : List Char)
    (hne : s ≠ []) (hall : s.all isSchemeCharC = true)
    (halpha : isAsciiAlphaC (s.headD 'x') = true) :
    (pyUrlsplitL (pyUrldefragL (pyUrlunparseL s n p prm q f)) []).scheme ≠ [] := by
  obtain ⟨t1, ht1⟩ := unparse_scheme_cons s n p prm q f hne
  rw [ht1]
  apply defrag_scheme_nonempty_of_parse
  · rw [urlsplit_scheme_reparse s t1 [] hne hall halpha]
    simpa using hne
  · rw [urlsplit_scheme_reparse s t1 [] hne hall halpha, List.all_eq_true]
    intro x hx
    rw [List.mem_map] at hx
    obtain ⟨c, hc, rfl⟩ := hx
    exact schemeChar_lower (List.all_eq_true.mp hall c hc)
  · rw [urlsplit_scheme_reparse s t1 [] hne hall halpha]
    obtain ⟨c, s', rfl⟩ := List.exists_cons_of_ne_nil hne
    simp only [List.map_cons, List.headD_cons]
    exact alpha_lower (by simpa using halpha)

theorem join_defrag_absolute (h : List Char) (hne : h ≠ []) :
    (pyUrlsplitL (pyUrldefragL (pyUrljoinL PBF_URL.toList h)) []).scheme ≠ [] := by
  have hbase : pyUrlparseL PBF_URL.toList [] =
      ⟨sL "https", sL "www.pbfcm.com", sL "/taxsale.html", [], [], []⟩ := by decide
  have hrel : sL "https" ∈ usesRelativeL := by decide
  simp only [pyUrljoinL]
  rw [if_neg (by decide), if_neg (by simpa using hne), hbase]
  by_cases hcond :
    (!(decide ((pyUrlparseL h (ParseL.scheme ⟨sL "https", sL "www.pbfcm.com",
        sL "/taxsale.html", [], [], []⟩)).scheme =
        (ParseL.scheme ⟨sL "https", sL "www.pbfcm.com", sL "/taxsale.html", [], [], []⟩))) ||
     !(decide ((pyUrlparseL h (ParseL.scheme ⟨sL "https", sL "www.pbfcm.com",
        sL "/taxsale.html", [], [], []⟩)).scheme ∈ usesRelativeL))) = true
  · rw [if_pos hcond]
    rcases urlsplit_scheme_cases h with hpass | ⟨hind, hp1, hp2, hp3⟩
    · exfalso
      have hsch : (pyUrlparseL h (ParseL.scheme ⟨sL "https", sL "www.pbfcm.com",
          sL "/taxsale.html", [], [], []⟩)).scheme = sL "https" := by
        rw [urlparse_scheme]
        exact hpass _
      rw [hsch] at hcond
      simp [hrel] at hcond
    · exact defrag_scheme_nonempty_of_parse h hp1 hp2 hp3
  · rw [if_neg hcond]
    have hsch : (pyUrlparseL h (ParseL.scheme ⟨sL "https", sL "www.pbfcm.com",
        sL "/taxsale.html", [], [], []⟩)).scheme = sL "https" := by
      rcases urlsplit_scheme_cases h with hpass | ⟨hind, hp1, hp2, hp3⟩
      · rw [urlparse_scheme]; exact hpass _
      · by_contra hneq
        apply hcond
        simp [hneq]
    rw [hsch]
    split
    · exact defrag_unparse_scheme _ _ _ _ _ _ (by decide) (by decide) (by decide)
    · split
      · exact defrag_unparse_scheme _ _ _ _ _ _ (by decide) (by decide) (by decide)
      · exact defrag_unparse_scheme _ _ _ _ _ _ (by decide) (by decide) (by decide)

theorem toList_ne_nil {s : String} (h : s ≠ "") : s.toList ≠ [] := by
  intro hh
  apply h
  cases s with
  | mk d =>
    simp only [String.toList] at hh
    rw [show d = ([] : List Char) from hh]

theorem canonRecord_none {r0 : RawRecord} (h : r0.href = none) : canonRecord r0 = r0 := by
  simp [canonRecord, h]

theorem canonRecord_emptyHref {r0 : RawRecord} (h : r0.href = some "") : canonRecord r0 = r0 := by
  simp [canonRecord, h]

theorem canonRecord_someHref {r0 : RawRecord} {h0 : String} (h : r0.href = some h0)
    (hne : h0 ≠ "") :
    (canonRecord r0).href = some (pyUrldefrag (pyUrljoin PBF_URL h0)) ∧
    (canonRecord r0).title = r0.title ∧ (canonRecord r0).label = r0.label := by
  simp [canonRecord, h, hne]

/-- C3 counterexample: a rendered document whose file anchor carries
`href=""` produces a raw record whose href is the non-null empty string: it
is left untouched (not replaced by resolving against the source URL) and is
not an absolute URL (its scheme component is empty), contradicting the claim
for non-null hrefs. -/
theorem C3_counterexample :
    extract_js emptyHrefDoc =
      [{ title := some "Tarrant County", label := some "x", href := some "" }] ∧
    (some "" : Option String) ≠ none ∧
    ¬ isAbsoluteUrlS "" ∧
    "" ≠ pyUrldefrag (pyUrljoin PBF_URL "") := by
  refine ⟨by decide, by decide, fun hAbs => hAbs (by decide), by decide⟩

/-- C3 (amended): every record of the returned raw sequence is the
canonicalisation of an extracted row; a null href is left untouched, an
empty-string href is also left untouched, and every other href is replaced
by resolving it against `PBF_URL` and stripping the fragment; consequently
every non-null, non-empty href in the returned result is a fragment-free
absolute URL. -/
theorem C3_canonical_urls (rows : List RawRecord) (r : RawRecord) (hr : r ∈ cleanRows rows) :
    (∃ r0 ∈ rows, r = canonRecord r0) ∧
    (∀ r0 : RawRecord, r0.href = none → canonRecord r0 = r0) ∧
    (∀ r0 : RawRecord, r0.href = some "" → canonRecord r0 = r0) ∧
    (∀ (r0 : RawRecord) (h0 : String), r0.href = some h0 → h0 ≠ "" →
      (canonRecord r0).href = some (pyUrldefrag (pyUrljoin PBF_URL h0)) ∧
      (canonRecord r0).title = r0.title ∧ (canonRecord r0).label = r0.label) ∧
    (∀ h : String, r.href = some h → h ≠ "" → noFragmentS h ∧ isAbsoluteUrlS h) := by
  have hmem : r ∈ rows.map canonRecord := by
    rw [cleanRows, cleanLoop_eq_dedupSeen] at hr
    exact (dedupSeen_sublist _ _).subset hr
  rw [List.mem_map] at hmem
  obtain ⟨r0, hr0, hr0c⟩ := hmem
  refine ⟨⟨r0, hr0, hr0c.symm⟩, fun r1 h => canonRecord_none h,
          fun r1 h => canonRecord_emptyHref h,
          fun r1 h1 h h' => canonRecord_someHref h h', ?_⟩
  intro h hhref hne
  subst hr0c
  match hh0 : r0.href with
  | none =>
    rw [canonRecord_none hh0, hh0] at hhref
    cases hhref
  | some h0 =>
    by_cases h0e : h0 = ""
    · subst h0e
      rw [canonRecord_emptyHref hh0, hh0] at hhref
      cases hhref
      exact absurd rfl hne
    · have hcanon := (canonRecord_someHref hh0 h0e).1
      rw [hcanon] at hhref
      obtain rfl := Option.some.inj hhref
      constructor
      · show '#' ∉ (pyUrldefrag (pyUrljoin PBF_URL h0)).toList
        exact defrag_no_hash _
      · show (pyUrlsplitL (pyUrldefrag (pyUrljoin PBF_URL h0)).toList []).scheme ≠ []
        exact join_defrag_absolute h0.toList (toList_ne_nil h0e)

/-- Witness for C3 at a concrete extracted row with a fragment-carrying
relative href. -/
theorem C3_witness :
    (⟨some "t", some "l", some "https://www.pbfcm.com/a.pdf"⟩ : RawRecord) ∈
      cleanRows [⟨some "t", some "l", some "/a.pdf#p"⟩] ∧
    ((∃ r0 ∈ [(⟨some "t", some "l", some "/a.pdf#p"⟩ : RawRecord)],
        (⟨some "t", some "l", some "https://www.pbfcm.com/a.pdf"⟩ : RawRecord) = canonRecord r0) ∧
     (∀ r0 : RawRecord, r0.href = none → canonRecord r0 = r0) ∧
     (∀ r0 : RawRecord, r0.href = some "" → canonRecord r0 = r0) ∧
     (∀ (r0 : RawRecord) (h0 : String), r0.href = some h0 → h0 ≠ "" →
       (canonRecord r0).href = some (pyUrldefrag (pyUrljoin PBF_URL h0)) ∧
       (canonRecord r0).title = r0.title ∧ (canonRecord r0).label = r0.label) ∧
     (∀ h : String,
       (⟨some "t", some "l", some "https://www.pbfcm.com/a.pdf"⟩ : RawRecord).href = some h →
       h ≠ "" → noFragmentS h ∧ isAbsoluteUrlS h)) :=
  ⟨by decide,
   C3_canonical_urls [⟨some "t", some "l", some "/a.pdf#p"⟩]
     ⟨some "t", some "l", some "https://www.pbfcm.com/a.pdf"⟩ (by decide)⟩
